import Mathlib

/-
Verification development for the `drift-sdk` DLOB (decentralized limit order
book) crate: a shallow embedding of `node_list.rs`, `dlob_node.rs`,
`dlob_orders.rs` and `dlob.rs` together with theorems about the embedded
operations.

Modelling conventions (the embedding is translated from the Rust source,
line references point into the repository's files):

* The linked sequence of `NodeWrapper`s (`head` plus the `next`/`previous`
  `Arc<Mutex<..>>` chain) is represented by the field `seq : List DLOBNodeRec`,
  the list of nodes reachable from `head` in head-to-tail order.  All source
  operations on the chain are translated as operations on this list.
* `HashMap` is represented by an association list (`List (κ × α)`) with
  replace-on-insert semantics, and `HashSet<String>` by a `List String` with
  insert-if-absent semantics.  Iteration order of the model is the insertion
  order, a fixed representative of the unspecified `HashMap` iteration order.
* `usize` arithmetic on `NodeList.length` is modelled on `Nat` with explicit
  wrapping modulo `2 ^ 64` (release-profile Rust semantics); in particular
  `length -= 1` at `length = 0` wraps around to `2 ^ 64 - 1`.
* `Pubkey` is an opaque displayable value, modelled as `String`; the order
  signature `format!("{}-{}", user_account, order_id)` becomes string
  concatenation.
* `DriftResult<()>` never carries an error in any of the embedded paths
  (every return is `Ok`), so the operations are modelled as pure state
  transformers.
* `DLOB::get_list_for_order` ends in `.cloned()` (dlob.rs line 271): callers
  receive a clone of the stored `NodeList`.  Mutating the clone's `node_map`,
  `length` or `head` has no effect on the registry; only splices performed on
  the `Arc<NodeWrapper>` link chain that the clone shares with the stored
  list write through.  The registry-visible effect of each clone mutation is
  modelled explicitly (see `NodeList.clone_insert_seq_effect`).
-/

namespace Drift

/-- The `usize` modulus for wrapping arithmetic on list lengths. -/
def USIZE : Nat := 2 ^ 64

/-! ### Association-list model of `HashMap` and `HashSet` -/

/-- Model of `HashMap` lookup on the association-list representation. -/
def lookupA {κ α : Type} [DecidableEq κ] : List (κ × α) → κ → Option α
  | [], _ => none
  | (k, v) :: rest, key => if k = key then some v else lookupA rest key

/-- Model of `HashMap::contains_key`. -/
def containsA {κ α : Type} [DecidableEq κ] (m : List (κ × α)) (key : κ) : Bool :=
  (lookupA m key).isSome

/-- Model of `HashMap::insert`: replace the entry in place if the key is present,
otherwise append it. -/
def insertA {κ α : Type} [DecidableEq κ] (key : κ) (v : α) : List (κ × α) → List (κ × α)
  | [] => [(key, v)]
  | (k, w) :: rest => if k = key then (key, v) :: rest else (k, w) :: insertA key v rest

/-- Model of `HashMap::remove` (keys are unique, so removing the first occurrence
matches the hash-map behavior). -/
def removeA {κ α : Type} [DecidableEq κ] (key : κ) : List (κ × α) → List (κ × α)
  | [] => []
  | (k, w) :: rest => if k = key then rest else (k, w) :: removeA key rest

/-- Model of `HashSet::insert` on the list representation: no-op when the element is present. -/
def setInsert (s : List String) (x : String) : List String :=
  if x ∈ s then s else s ++ [x]

/-! ### External order value type (`drift::state::user`) -/

inductive OrderStatus
  | Init
  | Open
  | Filled
  | Canceled
deriving DecidableEq

inductive OrderType
  | Market
  | Limit
  | TriggerMarket
  | TriggerLimit
  | Oracle
deriving DecidableEq

inductive OrderTriggerCondition
  | Above
  | Below
  | TriggeredAbove
  | TriggeredBelow
deriving DecidableEq

inductive PositionDirection
  | Long
  | Short
deriving DecidableEq

inductive MarketType
  | Spot
  | Perp
deriving DecidableEq

/-- The fields of `drift::state::user::Order` that this crate reads.  The
trailing three fields (`slot`, `auction_duration`, `post_only`) carry the
data of the external resting-limit predicate, see
`Order.is_resting_limit_order` below. -/
structure Order where
  order_id : Nat
  status : OrderStatus
  order_type : OrderType
  market_type : MarketType
  market_index : Nat
  direction : PositionDirection
  price : Nat
  trigger_price : Nat
  trigger_condition : OrderTriggerCondition
  base_asset_amount : Nat
  base_asset_amount_filled : Nat
  oracle_price_offset : Int
  slot : Nat
  auction_duration : Nat
  post_only : Bool
deriving DecidableEq

/-- Modelled from the spec: `Order::is_resting_limit_order` lives in the
external `drift` crate, not in this repository.  Spec section 4.1: the order
satisfies the resting predicate at the current slot once enough slots have
elapsed since it was placed, or once it is explicitly marked as
post-only/resting. -/
def Order.is_resting_limit_order (o : Order) (current_slot : Nat) : Bool :=
  o.post_only || decide (o.slot + o.auction_duration ≤ current_slot)

/-- Modelled from the spec: `Order::must_be_triggered` lives in the external
`drift` crate.  Spec section 4.1: the order types that require explicit
triggering before they can route to a tradable list are the trigger types. -/
def Order.must_be_triggered (o : Order) : Bool :=
  o.order_type = OrderType.TriggerMarket || o.order_type = OrderType.TriggerLimit

/-- node_list.rs lines 10-12: `format!("{}-{}", user_account, order_id)`. -/
def get_order_signature (order_id : Nat) (user_account : String) : String :=
  user_account ++ "-" ++ toString order_id

/-! ### `dlob_node.rs` -/

inductive DLOBNodeType
  | RestingLimit
  | TakingLimit
  | FloatingLimit
  | Market
  | Trigger
deriving DecidableEq

/-- dlob_node.rs lines 46-48: the sort value is the limit price as a signed
wide integer. -/
def get_sort_value (order : Order) : Int :=
  (order.price : Int)

/-- dlob_node.rs lines 25-44: `OrderNode`. -/
structure OrderNode where
  order : Order
  user_account : String
  sort_value : Int
  have_filled : Bool
  have_trigger : Bool
deriving DecidableEq

/-- dlob_node.rs lines 34-44: `OrderNode::new`. -/
def OrderNode.new (order : Order) (user_account : String) : OrderNode :=
  { order := order
    user_account := user_account
    sort_value := get_sort_value order
    have_filled := false
    have_trigger := false }

/-- dlob_node.rs lines 84-91 and 156-170: `DLOBNodeOrders` is one `OrderNode`
per classification variant; modelled as the node record plus its variant
tag. -/
structure DLOBNodeRec where
  tag : DLOBNodeType
  node : OrderNode
deriving DecidableEq

/-- dlob_node.rs lines 156-170: `create_node`. -/
def create_node (node_type : DLOBNodeType) (order : Order) (user_account : String) :
    DLOBNodeRec :=
  { tag := node_type, node := OrderNode.new order user_account }

/-- dlob_node.rs lines 145-153: `DLOBNode::sort_value` for `DLOBNodeOrders`. -/
def DLOBNodeRec.sort_value (n : DLOBNodeRec) : Int :=
  n.node.sort_value

/-- dlob_node.rs lines 125-133: `DLOBNode::order` always returns the wrapped
order for `DLOBNodeOrders`. -/
def DLOBNodeRec.order (n : DLOBNodeRec) : Option Order :=
  some n.node.order

/-- dlob_node.rs lines 135-143: `DLOBNode::user_account`. -/
def DLOBNodeRec.user_account (n : DLOBNodeRec) : Option String :=
  some n.node.user_account

/-! ### `node_list.rs` -/

inductive SortDirection
  | Asc
  | Desc
deriving DecidableEq

/-- node_list.rs lines 27-34: `NodeList`.  `seq` models the chain of
`NodeWrapper`s reachable from `head` (head-to-tail); `length` is the `usize`
counter; `node_map` is the signature lookup index. -/
structure NodeList where
  seq : List DLOBNodeRec
  node_type : DLOBNodeType
  length : Nat
  node_map : List (String × DLOBNodeRec)
  sort_direction : SortDirection
deriving DecidableEq

/-- node_list.rs lines 37-45: `NodeList::new`. -/
def NodeList.new (node_type : DLOBNodeType) (sort_direction : SortDirection) : NodeList :=
  { seq := []
    node_type := node_type
    length := 0
    node_map := []
    sort_direction := sort_direction }

/-- node_list.rs lines 47-51: `NodeList::clear`. -/
def NodeList.clear (l : NodeList) : NodeList :=
  { l with seq := [], length := 0, node_map := [] }

/-- node_list.rs lines 111-125: `prepend_node(current_node, new_node)` is true
when the new node sorts strictly better than `current_node` under the list's
direction. -/
def prepend_node (dir : SortDirection) (current_node new_node : DLOBNodeRec) : Bool :=
  match dir with
  | SortDirection.Asc => decide (new_node.sort_value < current_node.sort_value)
  | SortDirection.Desc => decide (new_node.sort_value > current_node.sort_value)

/-- node_list.rs lines 79-101: the scan of `insert`'s `while` loop over the
part of the chain after the head.  At each step the loop inspects
`current.next`; when `prepend_node(next, new)` holds the new node is spliced
in between `current` and `next` and the function returns.  When the loop
walks off the tail it exits with `current_node = None`, so the
append-at-tail block at lines 103-106 (`if let Some(last_node) =
&current_node`) never runs and the new node is not linked. -/
def insert_scan (dir : SortDirection) (new_node : DLOBNodeRec) :
    List DLOBNodeRec → List DLOBNodeRec
  | [] => []
  | nxt :: rest =>
      if prepend_node dir nxt new_node then new_node :: nxt :: rest
      else nxt :: insert_scan dir new_node rest

/-- node_list.rs lines 53-109: `NodeList::insert`. -/
def NodeList.insert (l : NodeList) (order : Order) (user_account : String) : NodeList :=
  if order.status = OrderStatus.Init then l
  else
    let new_node := create_node l.node_type order user_account
    let order_signature := get_order_signature order.order_id user_account
    if containsA l.node_map order_signature then l
    else
      let l2 : NodeList :=
        { l with
            node_map := insertA order_signature new_node l.node_map
            length := (l.length + 1) % USIZE }
      match l.seq with
      | [] => { l2 with seq := [new_node] }
      | c :: rest => { l2 with seq := c :: insert_scan l.sort_direction new_node rest }

/-- node_list.rs lines 127-135: `NodeList::update` replaces only the lookup
index entry; the chain is untouched. -/
def NodeList.update (l : NodeList) (order : Order) (user_account : String) : NodeList :=
  let order_signature := get_order_signature order.order_id user_account
  if containsA l.node_map order_signature then
    { l with node_map := insertA order_signature (create_node l.node_type order user_account) l.node_map }
  else l

/-- node_list.rs lines 137-143: `NodeList::remove` drops the index entry (a
no-op when absent) and unconditionally decrements the `usize` length, which
wraps at zero. -/
def NodeList.remove (l : NodeList) (order : Order) (user_account : String) : NodeList :=
  let order_signature := get_order_signature order.order_id user_account
  { l with
      node_map := removeA order_signature l.node_map
      length := (l.length + (USIZE - 1)) % USIZE }

/-- node_list.rs lines 145-148: `NodeList::has`. -/
def NodeList.has (l : NodeList) (order : Order) (user_account : String) : Bool :=
  containsA l.node_map (get_order_signature order.order_id user_account)

/-- node_list.rs lines 150-152: `NodeList::get`. -/
def NodeList.get (l : NodeList) (order_signature : String) : Option DLOBNodeRec :=
  lookupA l.node_map order_signature

/-- node_list.rs lines 154-158 and 169-182: iteration walks the chain from
`head`, which is exactly `seq`. -/
def NodeList.iterate (l : NodeList) : List DLOBNodeRec :=
  l.seq

/-- The registry-visible effect of `list.insert(order, user_account)` on a
clone returned by `get_list_for_order` (dlob.rs lines 192-194, 318-319).  The
clone's `node_map` copy, `length` and `head` are dropped with the clone; the
only mutations that reach the registry's list are the splices the loop
performs on the `Arc<NodeWrapper>` links shared with it.  The duplicate check
consults the clone's `node_map`, whose contents equal the registry list's. -/
def NodeList.clone_insert_seq_effect (l : NodeList) (order : Order)
    (user_account : String) : NodeList :=
  if order.status = OrderStatus.Init then l
  else
    let new_node := create_node l.node_type order user_account
    let order_signature := get_order_signature order.order_id user_account
    if containsA l.node_map order_signature then l
    else
      match l.seq with
      | [] => l
      | c :: rest => { l with seq := c :: insert_scan l.sort_direction new_node rest }

/-! ### `dlob_orders.rs` -/

/-- dlob_orders.rs lines 7-11: `DLOBOrder`. -/
structure DLOBOrder where
  user : String
  order : Order
deriving DecidableEq

/-! ### `dlob.rs` -/

inductive Side
  | Bid
  | Ask
deriving DecidableEq

/-- dlob.rs lines 50-54: `SideNodeList`. -/
structure SideNodeList where
  ask : NodeList
  bid : NodeList
deriving DecidableEq

/-- dlob.rs lines 56-59: `TriggerNodeList`. -/
structure TriggerNodeList where
  above : NodeList
  below : NodeList
deriving DecidableEq

/-- dlob.rs lines 42-48: `MarketNodeLists`, one classification bucket. -/
inductive MarketNodeLists
  | RestingLimit (l : SideNodeList)
  | FloatingLimit (l : SideNodeList)
  | TakingLimit (l : SideNodeList)
  | Market (l : SideNodeList)
  | Trigger (l : TriggerNodeList)
deriving DecidableEq

/-- dlob.rs lines 479-482: `OrderSubType`. -/
inductive OrderSubType
  | Trigger (c : OrderTriggerCondition)
  | Side (s : Side)
deriving DecidableEq

/-- dlob.rs lines 484-496: `determine_sub_type`. -/
def determine_sub_type (order : Order) (is_inactive_trigger_order : Bool) : OrderSubType :=
  if is_inactive_trigger_order then
    OrderSubType.Trigger
      (match order.trigger_condition with
        | OrderTriggerCondition.Above => OrderTriggerCondition.Above
        | _ => OrderTriggerCondition.Below)
  else
    OrderSubType.Side
      (match order.direction with
        | PositionDirection.Long => Side.Bid
        | _ => Side.Ask)

/-- dlob.rs lines 498-517: `determine_node_type`. -/
def determine_node_type (order : Order) (slot : Nat) : DLOBNodeType :=
  if (order.trigger_condition = OrderTriggerCondition.TriggeredAbove ∨
        order.trigger_condition = OrderTriggerCondition.TriggeredBelow) ∧
      order.must_be_triggered = true then
    DLOBNodeType.Trigger
  else if order.order_type = OrderType.Market ∨ order.order_type = OrderType.TriggerMarket ∨
      order.order_type = OrderType.Oracle then
    DLOBNodeType.Market
  else if order.oracle_price_offset ≠ 0 then
    DLOBNodeType.FloatingLimit
  else if order.is_resting_limit_order slot = true then
    DLOBNodeType.RestingLimit
  else
    DLOBNodeType.TakingLimit

/-- dlob.rs lines 167-174: the `matches!` guard of `insert_order` over the
supported order types. -/
def supported_order_type : OrderType → Bool
  | OrderType.Market => true
  | OrderType.Limit => true
  | OrderType.TriggerMarket => true
  | OrderType.TriggerLimit => true
  | OrderType.Oracle => true

/-- dlob.rs lines 61-66: the registry. -/
structure DLOB where
  open_orders : List (MarketType × List String)
  order_lists : List (MarketType × List (Nat × MarketNodeLists))
  max_slot_for_resting_limit_orders : Nat
  initialized : Bool
deriving DecidableEq

/-- dlob.rs lines 68-90: `Default::default` / `DLOB::new`. -/
def DLOB.new : DLOB :=
  { open_orders := [(MarketType.Perp, []), (MarketType.Spot, [])]
    order_lists := [(MarketType.Perp, []), (MarketType.Spot, [])]
    max_slot_for_resting_limit_orders := 0
    initialized := false }

/-- dlob.rs lines 92-95: `DLOB::initialize` (renamed here). -/
def DLOB.mark_initialized (d : DLOB) : DLOB :=
  { d with initialized := true }

/-- dlob.rs lines 97-129: `DLOB::clear` empties the per-entry sets and lists,
then clears both top-level maps (dropping the market-type keys themselves),
resets the watermark and re-enters the initialized state. -/
def DLOB.clear (d : DLOB) : DLOB :=
  let d1 : DLOB := { d with open_orders := [], order_lists := [] }
  let d2 : DLOB := { d1 with max_slot_for_resting_limit_orders := 0 }
  d2.mark_initialized

/-- dlob.rs lines 199-235: `DLOB::add_order_list` constructs the five fresh
buckets and inserts each of them under the same `market_index` key, so each
insert overwrites the previous one. -/
def DLOB.add_order_list (d : DLOB) (market_type : MarketType) (market_index : Nat) : DLOB :=
  let resting_limit := MarketNodeLists.RestingLimit
    { ask := NodeList.new DLOBNodeType.RestingLimit SortDirection.Asc
      bid := NodeList.new DLOBNodeType.RestingLimit SortDirection.Desc }
  let floating_limit := MarketNodeLists.FloatingLimit
    { ask := NodeList.new DLOBNodeType.FloatingLimit SortDirection.Asc
      bid := NodeList.new DLOBNodeType.FloatingLimit SortDirection.Desc }
  let taking_limit := MarketNodeLists.TakingLimit
    { ask := NodeList.new DLOBNodeType.TakingLimit SortDirection.Asc
      bid := NodeList.new DLOBNodeType.TakingLimit SortDirection.Asc }
  let market := MarketNodeLists.Market
    { ask := NodeList.new DLOBNodeType.Market SortDirection.Asc
      bid := NodeList.new DLOBNodeType.Market SortDirection.Asc }
  let trigger := MarketNodeLists.Trigger
    { above := NodeList.new DLOBNodeType.Trigger SortDirection.Asc
      below := NodeList.new DLOBNodeType.Trigger SortDirection.Desc }
  let market_node_lists := [resting_limit, floating_limit, taking_limit, market, trigger]
  match lookupA d.order_lists market_type with
  | some m =>
      { d with order_lists := (insertA market_type
          (market_node_lists.foldl (fun acc l => insertA market_index l acc) m)
          d.order_lists) }
  | none =>
      { d with order_lists := (insertA market_type
          (market_node_lists.foldl (fun acc l => insertA market_index l acc) [])
          d.order_lists) }

/-- dlob.rs lines 237-272: `DLOB::get_list_for_order`; the trailing
`.cloned()` means the caller receives a clone of the stored list. -/
def DLOB.get_list_for_order (d : DLOB) (order : Order) (slot : Nat) : Option NodeList :=
  let node_type := determine_node_type order slot
  let is_inactive_trigger_order : Bool := node_type = DLOBNodeType.Trigger
  let order_sub_type := determine_sub_type order is_inactive_trigger_order
  match lookupA d.order_lists order.market_type with
  | none => none
  | some m =>
      match lookupA m order.market_index with
      | none => none
      | some market_node_lists =>
          match market_node_lists with
          | MarketNodeLists.RestingLimit list | MarketNodeLists.FloatingLimit list
          | MarketNodeLists.TakingLimit list | MarketNodeLists.Market list =>
              match order_sub_type with
              | OrderSubType.Side Side.Ask => some list.ask
              | OrderSubType.Side Side.Bid => some list.bid
              | OrderSubType.Trigger _ => none
          | MarketNodeLists.Trigger list =>
              match order_sub_type with
              | OrderSubType.Trigger OrderTriggerCondition.Above => some list.above
              | OrderSubType.Trigger OrderTriggerCondition.Below => some list.below
              | OrderSubType.Trigger _ => none
              | OrderSubType.Side _ => none

/-- Applies `f` to the sub-list of one bucket that `sub` resolves, exactly as
`get_list_for_order`'s inner match; identity when the sub-type does not fit
the bucket (the Rust `if let Some(mut list)` then skips the mutation). -/
def apply_sub_to_mnl (sub : OrderSubType) (f : NodeList → NodeList) :
    MarketNodeLists → MarketNodeLists
  | MarketNodeLists.RestingLimit l =>
      match sub with
      | OrderSubType.Side Side.Ask => MarketNodeLists.RestingLimit { l with ask := f l.ask }
      | OrderSubType.Side Side.Bid => MarketNodeLists.RestingLimit { l with bid := f l.bid }
      | OrderSubType.Trigger _ => MarketNodeLists.RestingLimit l
  | MarketNodeLists.FloatingLimit l =>
      match sub with
      | OrderSubType.Side Side.Ask => MarketNodeLists.FloatingLimit { l with ask := f l.ask }
      | OrderSubType.Side Side.Bid => MarketNodeLists.FloatingLimit { l with bid := f l.bid }
      | OrderSubType.Trigger _ => MarketNodeLists.FloatingLimit l
  | MarketNodeLists.TakingLimit l =>
      match sub with
      | OrderSubType.Side Side.Ask => MarketNodeLists.TakingLimit { l with ask := f l.ask }
      | OrderSubType.Side Side.Bid => MarketNodeLists.TakingLimit { l with bid := f l.bid }
      | OrderSubType.Trigger _ => MarketNodeLists.TakingLimit l
  | MarketNodeLists.Market l =>
      match sub with
      | OrderSubType.Side Side.Ask => MarketNodeLists.Market { l with ask := f l.ask }
      | OrderSubType.Side Side.Bid => MarketNodeLists.Market { l with bid := f l.bid }
      | OrderSubType.Trigger _ => MarketNodeLists.Market l
  | MarketNodeLists.Trigger l =>
      match sub with
      | OrderSubType.Trigger OrderTriggerCondition.Above =>
          MarketNodeLists.Trigger { l with above := f l.above }
      | OrderSubType.Trigger OrderTriggerCondition.Below =>
          MarketNodeLists.Trigger { l with below := f l.below }
      | OrderSubType.Trigger _ => MarketNodeLists.Trigger l
      | OrderSubType.Side _ => MarketNodeLists.Trigger l

/-- Writes the registry-visible part of a mutation of the clone returned by
`get_list_for_order` back into the registry: the list that the order
resolves to is replaced by `f` of itself, everything else is untouched.
Mirrors the resolution of `get_list_for_order` (dlob.rs lines 237-272). -/
def DLOB.apply_to_resolved_list (d : DLOB) (order : Order) (slot : Nat)
    (f : NodeList → NodeList) : DLOB :=
  let node_type := determine_node_type order slot
  let is_inactive_trigger_order : Bool := node_type = DLOBNodeType.Trigger
  let order_sub_type := determine_sub_type order is_inactive_trigger_order
  let ol :=
    match lookupA d.order_lists order.market_type with
    | none => d.order_lists
    | some m =>
        match lookupA m order.market_index with
        | none => d.order_lists
        | some market_node_lists =>
            insertA order.market_type
              (insertA order.market_index (apply_sub_to_mnl order_sub_type f market_node_lists) m)
              d.order_lists
  { d with order_lists := ol }

/-- dlob.rs lines 184-190: add the signature to the market type's open-order
set (`entry(..).or_insert_with(HashSet::new).insert(sig)`). -/
def entry_insert (m : List (MarketType × List String)) (market_type : MarketType)
    (sig : String) : List (MarketType × List String) :=
  insertA market_type (setInsert ((lookupA m market_type).getD []) sig) m

/-- dlob.rs lines 157-197: `DLOB::insert_order`.  The final list insert runs
on the clone returned by `get_list_for_order`, so only its shared-link splice
effect reaches the registry (see `NodeList.clone_insert_seq_effect`). -/
def DLOB.insert_order (d : DLOB) (order : Order) (user_account : String) (slot : Nat) :
    DLOB :=
  if order.status = OrderStatus.Init then d
  else if supported_order_type order.order_type = false then d
  else
    let market_type := order.market_type
    let d1 := if containsA d.order_lists market_type then d
              else d.add_order_list market_type order.market_index
    let d2 :=
      if order.status = OrderStatus.Open then
        { d1 with open_orders := (entry_insert d1.open_orders market_type
            (get_order_signature order.order_id user_account)) }
      else d1
    d2.apply_to_resolved_list order slot
      (fun l => l.clone_insert_seq_effect order user_account)

/-- dlob.rs lines 140-151: `DLOB::init_from_orders`; the `Bool` is the Rust
return value (`false` = already initialized, nothing applied). -/
def DLOB.init_from_orders (d : DLOB) (dlob_orders : List DLOBOrder) (slot : Nat) :
    DLOB × Bool :=
  if d.initialized then (d, false)
  else
    let d1 := dlob_orders.foldl
      (fun acc dlob_order => acc.insert_order dlob_order.order dlob_order.user slot) d
    (d1.mark_initialized, true)

/-- dlob.rs lines 384-402: the collection pass of the sweep over one
bucket's `TakingLimit` lists (ask first, then bid).  A node whose `order()`
is `None` is always collected; every node of this crate wraps an order, so
the filter is the resting predicate. -/
def sweep_collect (slot : Nat) : MarketNodeLists → List (Side × DLOBNodeRec)
  | MarketNodeLists.TakingLimit taking_limit =>
      (taking_limit.ask.iterate.filter
          (fun n => match n.order with
            | some o => o.is_resting_limit_order slot
            | none => true)).map (fun n => (Side.Ask, n)) ++
      (taking_limit.bid.iterate.filter
          (fun n => match n.order with
            | some o => o.is_resting_limit_order slot
            | none => true)).map (fun n => (Side.Bid, n))
  | _ => []

/-- dlob.rs lines 404-425: the mutation pass of the sweep.  It matches the
same `market_node_lists` value against `RestingLimit`, but that value was
just matched as `TakingLimit` whenever `nodes_to_update` is non-empty, so
the remove/insert body never runs. -/
def sweep_apply (nodes_to_update : List (Side × DLOBNodeRec)) :
    MarketNodeLists → MarketNodeLists :=
  fun mnl =>
    nodes_to_update.foldl
      (fun acc sn =>
        match acc with
        | MarketNodeLists.RestingLimit resting_limit =>
            match sn.1 with
            | Side.Ask =>
                match sn.2.order, sn.2.user_account with
                | some o, some u =>
                    MarketNodeLists.RestingLimit
                      { resting_limit with ask := (resting_limit.ask.remove o u).insert o u }
                | _, _ => MarketNodeLists.RestingLimit resting_limit
            | Side.Bid =>
                match sn.2.order, sn.2.user_account with
                | some o, some u =>
                    MarketNodeLists.RestingLimit
                      { resting_limit with bid := (resting_limit.bid.remove o u).insert o u }
                | _, _ => MarketNodeLists.RestingLimit resting_limit
        | other => other)
      mnl

/-- dlob.rs lines 375-429: `update_resting_limit_orders_for_market_type`,
one bucket at a time over the market type's bucket map. -/
def DLOB.update_resting_limit_orders_for_market_type (d : DLOB) (slot : Nat)
    (market_type : MarketType) : DLOB :=
  match lookupA d.order_lists market_type with
  | none => d
  | some m =>
      { d with order_lists := (insertA market_type
          (m.map (fun p => (p.1, sweep_apply (sweep_collect slot p.2) p.2)))
          d.order_lists) }

/-- dlob.rs lines 362-373: `DLOB::update_resting_limit_orders`.  When the
guard passes, the watermark is reset to zero (not raised to `slot`) before
the per-market sweeps run. -/
def DLOB.update_resting_limit_orders (d : DLOB) (slot : Nat) : DLOB :=
  if slot ≤ d.max_slot_for_resting_limit_orders then d
  else
    let d1 : DLOB := { d with max_slot_for_resting_limit_orders := 0 }
    (d1.update_resting_limit_orders_for_market_type slot MarketType.Perp).update_resting_limit_orders_for_market_type
      slot MarketType.Spot

/-- dlob.rs lines 274-286: `DLOB::delete`.  `list.remove` at line 282 runs on
the clone returned by `get_list_for_order` and touches only the clone's
`node_map` copy and `length`, both dropped with the clone, so the registry is
unchanged by it. -/
def DLOB.delete (d : DLOB) (order : Order) (_user_account : String) (slot : Nat) : DLOB :=
  if order.status = OrderStatus.Init then d
  else
    let d1 := d.update_resting_limit_orders slot
    let _clone := d1.get_list_for_order order slot
    d1

/-- dlob.rs lines 288-325: `DLOB::trigger`.  The removal at line 315 operates
directly (`&mut`) on the registry's trigger bucket; the chosen list is
`above` only when the (already flipped) condition equals `Above`, hence
always `below` past the untriggered guard.  The re-insert at line 319 runs on
a clone, so only its shared-link splice effect persists. -/
def DLOB.trigger (d : DLOB) (order : Order) (user_account : String) (slot : Nat) : DLOB :=
  if order.status = OrderStatus.Init then d
  else
    let d1 := d.update_resting_limit_orders slot
    if order.trigger_condition = OrderTriggerCondition.Above ∨
        order.trigger_condition = OrderTriggerCondition.Below then d1
    else
      match lookupA d1.order_lists order.market_type with
      | none => d1
      | some m =>
          match lookupA m order.market_index with
          | none => d1
          | some node_list =>
              let node_list2 :=
                match node_list with
                | MarketNodeLists.Trigger trigger_node_list =>
                    if order.trigger_condition = OrderTriggerCondition.Above then
                      MarketNodeLists.Trigger
                        { trigger_node_list with
                            above := trigger_node_list.above.remove order user_account }
                    else
                      MarketNodeLists.Trigger
                        { trigger_node_list with
                            below := trigger_node_list.below.remove order user_account }
                | other => other
              let d2 : DLOB :=
                { d1 with order_lists := (insertA order.market_type
                    (insertA order.market_index node_list2 m) d1.order_lists) }
              d2.apply_to_resolved_list order slot
                (fun l => l.clone_insert_seq_effect order user_account)

/-- dlob.rs lines 351-353: the updated snapshot built by `update_order`; the
code writes the cumulative filled amount into `base_asset_amount`. -/
def updated_snapshot (order : Order) (cumulative_base_asset_amount_filled : Nat) : Order :=
  { order with base_asset_amount := cumulative_base_asset_amount_filled }

/-- dlob.rs lines 327-360: `DLOB::update_order`.  The final `node_list.update`
at line 356 runs on the clone returned by `get_list_for_order` and touches
only the clone's `node_map` copy, dropped with the clone, so the registry is
unchanged by it. -/
def DLOB.update_order (d : DLOB) (order : Order) (user_account : String) (slot : Nat)
    (cumulative_base_asset_amount_filled : Nat) : DLOB :=
  let d1 := d.update_resting_limit_orders slot
  if order.base_asset_amount = cumulative_base_asset_amount_filled then
    d1.delete order user_account slot
  else if order.base_asset_amount_filled = cumulative_base_asset_amount_filled then d1
  else
    let new_order := updated_snapshot order cumulative_base_asset_amount_filled
    let _clone := d1.get_list_for_order order slot
    let _new_order := new_order
    d1

/-- dlob.rs lines 42-48 flattening used by `get_node_lists`. -/
def flatten_mnl : MarketNodeLists → List NodeList
  | MarketNodeLists.RestingLimit l => [l.ask, l.bid]
  | MarketNodeLists.FloatingLimit l => [l.ask, l.bid]
  | MarketNodeLists.TakingLimit l => [l.ask, l.bid]
  | MarketNodeLists.Market l => [l.ask, l.bid]
  | MarketNodeLists.Trigger l => [l.above, l.below]

/-- dlob.rs lines 443-476: `DLOB::get_node_lists`, Perp lists before Spot. -/
def DLOB.get_node_lists (d : DLOB) : List NodeList :=
  (((lookupA d.order_lists MarketType.Perp).getD []).map (fun p => flatten_mnl p.2)).flatten ++
  (((lookupA d.order_lists MarketType.Spot).getD []).map (fun p => flatten_mnl p.2)).flatten

/-- dlob.rs lines 431-441: `DLOB::get_order`. -/
def DLOB.get_order (d : DLOB) (order_id : Nat) (user_account : String) : Option Order :=
  let order_sig := get_order_signature order_id user_account
  d.get_node_lists.findSome? (fun nl => (nl.get order_sig).bind (fun n => n.order))


/-! ### Concrete instances used by the theorems below -/

/-- A plain open limit order (Perp market index 0, long) with the given id and
price; the auction runs for 10 slots from slot 0, so the order is not yet
resting at small slots. -/
def mkLimitOrder (id price : Nat) : Order :=
  { order_id := id
    status := OrderStatus.Open
    order_type := OrderType.Limit
    market_type := MarketType.Perp
    market_index := 0
    direction := PositionDirection.Long
    price := price
    trigger_price := 0
    trigger_condition := OrderTriggerCondition.Above
    base_asset_amount := 10
    base_asset_amount_filled := 0
    oracle_price_offset := 0
    slot := 0
    auction_duration := 10
    post_only := false }

/-- An ascending resting-limit list after inserting prices 5 then 7. -/
def lC1 : NodeList :=
  ((NodeList.new DLOBNodeType.RestingLimit SortDirection.Asc).insert
    (mkLimitOrder 1 5) "u").insert (mkLimitOrder 2 7) "u"

/-- The list `lC1` after additionally inserting price 3 (which sorts before
the head). -/
def lC1c : NodeList :=
  lC1.insert (mkLimitOrder 3 3) "u"

/-- A singleton resting-limit list holding order id 9 at price 5. -/
def lC9 : NodeList :=
  (NodeList.new DLOBNodeType.RestingLimit SortDirection.Asc).insert (mkLimitOrder 9 5) "u"

/-- An untriggered trigger-limit order (condition `Above`). -/
def oPre : Order :=
  { mkLimitOrder 9 5 with
      order_type := OrderType.TriggerLimit
      trigger_price := 20 }

/-- The same order after its condition flipped to `TriggeredAbove`. -/
def oPost : Order :=
  { oPre with trigger_condition := OrderTriggerCondition.TriggeredAbove }

/-- The signature of `oPre`/`oPost`. -/
def sigT : String := get_order_signature 9 "u"

/-- A trigger/above list holding the node for `oPre`. -/
def aboveList : NodeList :=
  { seq := [create_node DLOBNodeType.Trigger oPre "u"]
    node_type := DLOBNodeType.Trigger
    length := 1
    node_map := [(sigT, create_node DLOBNodeType.Trigger oPre "u")]
    sort_direction := SortDirection.Asc }

/-- A registry whose Perp market 0 carries a trigger bucket: `oPre` sits in
the above list, the below list is empty. -/
def dT : DLOB :=
  { open_orders := [(MarketType.Perp, [sigT]), (MarketType.Spot, [])]
    order_lists := [(MarketType.Perp,
      [(0, MarketNodeLists.Trigger
        { above := aboveList
          below := NodeList.new DLOBNodeType.Trigger SortDirection.Desc })]),
      (MarketType.Spot, [])]
    max_slot_for_resting_limit_orders := 0
    initialized := true }

/-! ### Helper lemmas about the association-list and set models -/

theorem lookupA_insertA_self {κ α : Type} [DecidableEq κ] (key : κ) (v : α)
    (m : List (κ × α)) : lookupA (insertA key v m) key = some v := by
  induction m with
  | nil => simp [insertA, lookupA]
  | cons p rest ih =>
      obtain ⟨k, w⟩ := p
      by_cases h : k = key
      · simp [insertA, lookupA, h]
      · simp [insertA, lookupA, h, ih]

theorem lookupA_insertA_ne {κ α : Type} [DecidableEq κ] (key key2 : κ) (v : α)
    (m : List (κ × α)) (h : key ≠ key2) :
    lookupA (insertA key v m) key2 = lookupA m key2 := by
  induction m with
  | nil => simp [insertA, lookupA, h]
  | cons p rest ih =>
      obtain ⟨k, w⟩ := p
      by_cases hk : k = key
      · subst hk; simp [insertA, lookupA, h]
      · simp [insertA, lookupA, hk, ih]

theorem containsA_insertA_self {κ α : Type} [DecidableEq κ] (key : κ) (v : α)
    (m : List (κ × α)) : containsA (insertA key v m) key = true := by
  simp [containsA, lookupA_insertA_self]

theorem insertA_self_of_lookup {κ α : Type} [DecidableEq κ] {key : κ} {v : α}
    {m : List (κ × α)} (h : lookupA m key = some v) : insertA key v m = m := by
  induction m with
  | nil => simp [lookupA] at h
  | cons p rest ih =>
      obtain ⟨k, w⟩ := p
      by_cases hk : k = key
      · subst hk
        simp [lookupA] at h
        simp [insertA, h]
      · simp [lookupA, hk] at h
        simp [insertA, hk, ih h]

theorem setInsert_mem_self (s : List String) (x : String) : x ∈ setInsert s x := by
  by_cases h : x ∈ s
  · simp [setInsert, h]
  · simp [setInsert, h]

theorem setInsert_mem_mono (s : List String) (x y : String) (h : y ∈ s) :
    y ∈ setInsert s x := by
  by_cases hx : x ∈ s
  · simpa [setInsert, hx] using h
  · simp [setInsert, hx, h]

theorem setInsert_self_of_mem {s : List String} {x : String} (h : x ∈ s) :
    setInsert s x = s := by
  simp [setInsert, h]

theorem mem_entry_insert_self (m : List (MarketType × List String)) (mt : MarketType)
    (sig : String) : sig ∈ (lookupA (entry_insert m mt sig) mt).getD [] := by
  simp only [entry_insert, lookupA_insertA_self, Option.getD_some]
  exact setInsert_mem_self _ _

theorem mem_entry_insert_mono (m : List (MarketType × List String)) (mt mt2 : MarketType)
    (sig sig2 : String) (h : sig2 ∈ (lookupA m mt2).getD []) :
    sig2 ∈ (lookupA (entry_insert m mt sig) mt2).getD [] := by
  by_cases hmt : mt = mt2
  · subst hmt
    simp only [entry_insert, lookupA_insertA_self, Option.getD_some]
    exact setInsert_mem_mono _ _ _ h
  · simpa [entry_insert, lookupA_insertA_ne _ _ _ _ hmt] using h

theorem entry_insert_self_of_mem {m : List (MarketType × List String)} {mt : MarketType}
    {sig : String} (h : sig ∈ (lookupA m mt).getD []) : entry_insert m mt sig = m := by
  cases hl : lookupA m mt with
  | none => rw [hl] at h; simp at h
  | some s =>
      rw [hl] at h
      simp only [Option.getD_some] at h
      unfold entry_insert
      rw [hl]
      simp only [Option.getD_some, setInsert_self_of_mem h]
      exact insertA_self_of_lookup hl

/-! ### Helper lemmas about `NodeList.insert`'s sequence behavior -/

theorem insert_seq_length_le (l : NodeList) (o : Order) (u : String)
    (h : l.seq.length ≤ 1) : (l.insert o u).seq.length ≤ 1 := by
  unfold NodeList.insert
  by_cases hs : o.status = OrderStatus.Init
  · simpa [hs] using h
  · by_cases hc : containsA l.node_map (get_order_signature o.order_id u) = true
    · simpa [hs, hc] using h
    · cases hseq : l.seq with
      | nil => simp [hs, hc, hseq]
      | cons c rest =>
          have hr : rest = [] := by
            rw [hseq] at h
            simp only [List.length_cons] at h
            exact List.eq_nil_of_length_eq_zero (by omega)
          subst hr
          simp [hs, hc, hseq, insert_scan]

theorem foldl_insert_seq_length_le (ops : List (Order × String)) (l : NodeList)
    (h : l.seq.length ≤ 1) :
    (ops.foldl (fun acc p => acc.insert p.1 p.2) l).seq.length ≤ 1 := by
  induction ops generalizing l with
  | nil => simpa using h
  | cons p rest ih => exact ih _ (insert_seq_length_le _ _ _ h)

/-! ### Helper lemmas about the sweep and the registry -/

theorem sweep_apply_taking (L : List (Side × DLOBNodeRec)) (tl : SideNodeList) :
    sweep_apply L (MarketNodeLists.TakingLimit tl) = MarketNodeLists.TakingLimit tl := by
  induction L with
  | nil => rfl
  | cons hd rest ih =>
      simp only [sweep_apply, List.foldl_cons]
      exact ih

theorem sweep_collect_apply_noop (slot : Nat) (mnl : MarketNodeLists) :
    sweep_apply (sweep_collect slot mnl) mnl = mnl := by
  cases mnl with
  | TakingLimit tl => exact sweep_apply_taking _ tl
  | RestingLimit l => rfl
  | FloatingLimit l => rfl
  | Market l => rfl
  | Trigger l => rfl

theorem add_order_list_open_orders (d : DLOB) (mt : MarketType) (idx : Nat) :
    (d.add_order_list mt idx).open_orders = d.open_orders := by
  unfold DLOB.add_order_list
  cases h : lookupA d.order_lists mt <;> simp [h]

theorem apply_to_resolved_open_orders (d : DLOB) (o : Order) (slot : Nat)
    (f : NodeList → NodeList) :
    (d.apply_to_resolved_list o slot f).open_orders = d.open_orders := rfl

theorem insert_order_open_mem (d : DLOB) (o : Order) (u : String) (slot : Nat)
    (h1 : o.status = OrderStatus.Open) (h2 : supported_order_type o.order_type = true) :
    get_order_signature o.order_id u ∈
      (lookupA (d.insert_order o u slot).open_orders o.market_type).getD [] := by
  unfold DLOB.insert_order
  rw [h1, h2]
  simp only [reduceCtorEq, if_false, Bool.true_eq_false, if_true]
  rw [apply_to_resolved_open_orders]
  exact mem_entry_insert_self _ _ _

theorem containsA_default_lists (mt : MarketType) :
    containsA DLOB.new.order_lists mt = true := by
  cases mt <;> decide

theorem lookupA_default_lists (mt : MarketType) :
    lookupA DLOB.new.order_lists mt = some [] := by
  cases mt <;> rfl

theorem apply_to_resolved_default (d : DLOB) (o : Order) (slot : Nat)
    (f : NodeList → NodeList) (h : d.order_lists = DLOB.new.order_lists) :
    d.apply_to_resolved_list o slot f = d := by
  unfold DLOB.apply_to_resolved_list
  have hl : lookupA d.order_lists o.market_type = some [] := by
    rw [h]; exact lookupA_default_lists _
  simp only [hl, lookupA]

theorem insert_order_on_default_lists (d : DLOB) (o : Order) (u : String) (slot : Nat)
    (h : d.order_lists = DLOB.new.order_lists) :
    d.insert_order o u slot =
      if o.status = OrderStatus.Open ∧ supported_order_type o.order_type = true then
        { d with open_orders := (entry_insert d.open_orders o.market_type
            (get_order_signature o.order_id u)) }
      else d := by
  unfold DLOB.insert_order
  by_cases hs : o.status = OrderStatus.Init
  · have hno : ¬ (o.status = OrderStatus.Open ∧ supported_order_type o.order_type = true) := by
      rw [hs]; rintro ⟨h1, -⟩; cases h1
    simp [hs, hno]
  · cases hsup : supported_order_type o.order_type with
    | false =>
        have hno : ¬ (o.status = OrderStatus.Open ∧ supported_order_type o.order_type = true) := by
          rw [hsup]; rintro ⟨-, h2⟩; cases h2
        simp [hs, hsup, hno]
    | true =>
        have hcont : containsA d.order_lists o.market_type = true := by
          rw [h]; exact containsA_default_lists _
        by_cases ho : o.status = OrderStatus.Open
        · simp only [hs, if_neg, hsup, Bool.true_eq_false, if_false, hcont, if_true, ho,
            and_self, reduceIte]
          exact apply_to_resolved_default _ _ _ _ h
        · have hno : ¬ (o.status = OrderStatus.Open ∧ supported_order_type o.order_type = true) := by
            rintro ⟨h1, -⟩; exact ho h1
          simp only [hs, if_neg, hsup, Bool.true_eq_false, if_false, hcont, if_true, ho, hno,
            reduceIte]
          exact apply_to_resolved_default _ _ _ _ h

theorem insert_order_default_order_lists (d : DLOB) (o : Order) (u : String) (slot : Nat)
    (h : d.order_lists = DLOB.new.order_lists) :
    (d.insert_order o u slot).order_lists = DLOB.new.order_lists := by
  rw [insert_order_on_default_lists d o u slot h]
  split_ifs <;> exact h

theorem insert_order_noop_of_mem (d : DLOB) (o : Order) (u : String) (slot : Nat)
    (hL : d.order_lists = DLOB.new.order_lists)
    (hm : o.status = OrderStatus.Open → supported_order_type o.order_type = true →
      get_order_signature o.order_id u ∈ (lookupA d.open_orders o.market_type).getD []) :
    d.insert_order o u slot = d := by
  rw [insert_order_on_default_lists d o u slot hL]
  split_ifs with hcond
  · rw [entry_insert_self_of_mem (hm hcond.1 hcond.2)]
  · rfl

theorem insert_order_mem_mono (d : DLOB) (o : Order) (u : String) (slot : Nat)
    (mt2 : MarketType) (sig2 : String)
    (hL : d.order_lists = DLOB.new.order_lists)
    (h : sig2 ∈ (lookupA d.open_orders mt2).getD []) :
    sig2 ∈ (lookupA (d.insert_order o u slot).open_orders mt2).getD [] := by
  rw [insert_order_on_default_lists d o u slot hL]
  split_ifs
  · exact mem_entry_insert_mono _ _ _ _ _ h
  · exact h

theorem foldl_insert_order_default_lists (slot : Nat) (ops : List DLOBOrder) (d : DLOB)
    (h : d.order_lists = DLOB.new.order_lists) :
    (ops.foldl (fun acc p => acc.insert_order p.order p.user slot) d).order_lists
      = DLOB.new.order_lists := by
  induction ops generalizing d with
  | nil => simpa using h
  | cons p rest ih => exact ih _ (insert_order_default_order_lists _ _ _ _ h)

theorem foldl_insert_order_mem_mono (slot : Nat) (ops : List DLOBOrder) (d : DLOB)
    (mt2 : MarketType) (sig2 : String)
    (hL : d.order_lists = DLOB.new.order_lists)
    (h : sig2 ∈ (lookupA d.open_orders mt2).getD []) :
    sig2 ∈
      (lookupA (ops.foldl (fun acc p => acc.insert_order p.order p.user slot) d).open_orders
        mt2).getD [] := by
  induction ops generalizing d with
  | nil => simpa using h
  | cons p rest ih =>
      exact ih _ (insert_order_default_order_lists _ _ _ _ hL)
        (insert_order_mem_mono _ _ _ _ _ _ hL h)

theorem init_from_orders_dup (slot : Nat) (pre post : List DLOBOrder) (x : DLOBOrder) :
    DLOB.init_from_orders DLOB.new (pre ++ x :: (post ++ [x])) slot
      = DLOB.init_from_orders DLOB.new (pre ++ x :: post) slot := by
  have hinit : DLOB.new.initialized = false := rfl
  unfold DLOB.init_from_orders
  rw [hinit]
  simp only [Bool.false_eq_true, if_false, List.foldl_append, List.foldl_cons, List.foldl_nil]
  have hL0 : (pre.foldl (fun acc p => acc.insert_order p.order p.user slot) DLOB.new).order_lists
      = DLOB.new.order_lists :=
    foldl_insert_order_default_lists slot pre DLOB.new rfl
  have hL1 : ((pre.foldl (fun acc p => acc.insert_order p.order p.user slot)
        DLOB.new).insert_order x.order x.user slot).order_lists = DLOB.new.order_lists :=
    insert_order_default_order_lists _ _ _ _ hL0
  have hL2 : (post.foldl (fun acc p => acc.insert_order p.order p.user slot)
        ((pre.foldl (fun acc p => acc.insert_order p.order p.user slot)
          DLOB.new).insert_order x.order x.user slot)).order_lists = DLOB.new.order_lists :=
    foldl_insert_order_default_lists slot post _ hL1
  have hmem : x.order.status = OrderStatus.Open →
      supported_order_type x.order.order_type = true →
      get_order_signature x.order.order_id x.user ∈
        (lookupA (post.foldl (fun acc p => acc.insert_order p.order p.user slot)
          ((pre.foldl (fun acc p => acc.insert_order p.order p.user slot)
            DLOB.new).insert_order x.order x.user slot)).open_orders
          x.order.market_type).getD [] := by
    intro h1 h2
    exact foldl_insert_order_mem_mono slot post _ _ _ hL1
      (insert_order_open_mem _ x.order x.user slot h1 h2)
  rw [insert_order_noop_of_mem _ _ _ _ hL2 hmem]

theorem insert_noop_of_contains (l : NodeList) (o : Order) (u : String)
    (h : containsA l.node_map (get_order_signature o.order_id u) = true) :
    l.insert o u = l := by
  unfold NodeList.insert
  by_cases hs : o.status = OrderStatus.Init
  · simp [hs]
  · simp [hs, h]

/-! ### Claim theorems -/

/-- C1: the claim says `NodeList.insert` links the new node immediately before
the first existing node whose sort value does not compare strictly worse,
appends at the tail if none is found, or makes it the sole head of an empty
list, so that traversal is sorted with FIFO ties.  The code does not do
this: the append-at-tail block of node_list.rs lines 103-106 is dead (the
loop exits with `current_node = None`), and the scan never compares against
the head itself, so starting from an empty list every insert after the first
leaves the linked sequence untouched.  After any sequence of inserts the
traversal holds at most one node; concretely, inserting prices 5 then 7
ascending leaves traversal `[id 1]` with length 2 and both signatures in the
index, and a further insert of price 3 (which should become the new head) is
dropped from the traversal as well. -/
theorem insert_drops_new_nodes_from_sequence :
    (∀ (ops : List (Order × String)) (nt : DLOBNodeType) (dir : SortDirection),
        (ops.foldl (fun acc p => acc.insert p.1 p.2) (NodeList.new nt dir)).seq.length ≤ 1)
    ∧ (lC1.iterate.map (fun n => n.node.order.order_id) = [1]
        ∧ lC1.length = 2
        ∧ containsA lC1.node_map (get_order_signature 2 "u") = true)
    ∧ lC1c.iterate.map (fun n => n.node.order.order_id) = [1] := by
  refine ⟨?_, by decide, by decide⟩
  intro ops nt dir
  exact foldl_insert_seq_length_le ops _ (by simp [NodeList.new])

/-- C2: the claim says two successive `update_resting_limit_orders` calls
with the same slot perform the full per-market scan only once, the second
call being blocked by the watermark.  The code resets
`max_slot_for_resting_limit_orders` to 0 instead of raising it to `slot`
(dlob.rs line 367), so after a first call at slot 5 the guard `5 ≤ 0` still
fails and the second call re-enters the scan.  The second call nonetheless
leaves the registry unchanged, but only because the scan's mutation loop is
itself dead code: the `RestingLimit` match inside the `TakingLimit` pass
never fires, so the scan never changes any bucket. -/
theorem sweep_watermark_never_raised :
    ((DLOB.new.update_resting_limit_orders 5).max_slot_for_resting_limit_orders = 0
      ∧ ¬ (5 ≤ (DLOB.new.update_resting_limit_orders 5).max_slot_for_resting_limit_orders))
    ∧ (∀ (slot : Nat) (mnl : MarketNodeLists), sweep_apply (sweep_collect slot mnl) mnl = mnl)
    ∧ ((DLOB.new.update_resting_limit_orders 5).update_resting_limit_orders 5
        = DLOB.new.update_resting_limit_orders 5) := by
  refine ⟨by decide, fun slot mnl => sweep_collect_apply_noop slot mnl, by decide⟩

/-- C3: the claim says `NodeList.remove` on an absent signature is a safe
no-op that never underflows the length counter, and on a present signature
drops the index entry and decrements the length by one.  The code
unconditionally decrements the `usize` counter (node_list.rs line 140):
removing from an empty list wraps the length to `2 ^ 64 - 1`, and removing
an absent signature from a one-element list leaves the index entry in place
while the length drops to 0. -/
theorem remove_absent_mutates_length :
    (((NodeList.new DLOBNodeType.RestingLimit SortDirection.Asc).remove
          (mkLimitOrder 1 5) "u").length = 2 ^ 64 - 1
      ∧ ((NodeList.new DLOBNodeType.RestingLimit SortDirection.Asc).remove
          (mkLimitOrder 1 5) "u").node_map = [])
    ∧ (containsA (lC9.remove (mkLimitOrder 2 7) "w").node_map
          (get_order_signature 9 "u") = true
      ∧ (lC9.remove (mkLimitOrder 2 7) "w").length = 0) := by
  decide

/-- C4: the claim says an `insert_order` for a (market type, market index)
pair without a bucket set creates all five classification buckets for that
index.  The code checks `contains_key` on the market type alone (dlob.rs
line 180), which the default registry always satisfies, so no bucket is ever
created for the index; and when `add_order_list` does run (only reachable
after `clear` drops the market-type keys) it inserts all five buckets under
the same `market_index` key, so only the last one — the trigger bucket —
survives. -/
theorem insert_order_creates_no_bucket_set :
    (lookupA (DLOB.new.insert_order (mkLimitOrder 1 5) "u" 3).order_lists MarketType.Perp
        = some []
      ∧ lookupA ((lookupA (DLOB.new.insert_order (mkLimitOrder 1 5) "u" 3).order_lists
          MarketType.Perp).getD []) 0 = none)
    ∧ lookupA ((DLOB.clear DLOB.new).insert_order (mkLimitOrder 1 5) "u" 3).order_lists
        MarketType.Perp
      = some [(0, MarketNodeLists.Trigger
          { above := NodeList.new DLOBNodeType.Trigger SortDirection.Asc
            below := NodeList.new DLOBNodeType.Trigger SortDirection.Desc })] := by
  decide

/-- C5: the claim says `trigger` removes a `TriggeredAbove` order from the
above trigger list and re-inserts it via normal classification into a
Market/Limit-family list.  In the code the list choice compares the already
flipped condition against `Above` (dlob.rs line 305), which can never hold
past the untriggered guard, so the order is removed from the below list: on
the registry `dT` (where `oPre` sits in the above list and the below list is
empty) the above list still contains the signature afterwards while the
below list's length underflows to `2 ^ 64 - 1`; and the classifier routes
the flipped order back to the trigger classification, not to a Market or
Limit-family list. -/
theorem trigger_mishandles_triggered_above :
    ((dT.trigger oPost "u" 5).get_node_lists.map (fun nl => containsA nl.node_map sigT)
        = [true, false])
    ∧ ((dT.trigger oPost "u" 5).get_node_lists.map (fun nl => nl.length)
        = [1, 2 ^ 64 - 1])
    ∧ determine_node_type oPost 5 = DLOBNodeType.Trigger := by
  decide

/-- C6: the claim says `update_order` (past the delete and no-op guards)
builds a snapshot differing from the input only in its filled amount and
passes it to the resolved list's update.  The code writes the cumulative
filled amount into `base_asset_amount` — the total size — instead of
`base_asset_amount_filled` (dlob.rs line 353); moreover the update and the
full-fill delete both run on the discarded clone returned by
`get_list_for_order`, so the registry — here `dT`, which holds the order —
is left completely unchanged in both cases. -/
theorem update_order_overwrites_total_amount :
    ((updated_snapshot oPost 4).base_asset_amount = 4
      ∧ (updated_snapshot oPost 4).base_asset_amount_filled = 0)
    ∧ dT.update_order oPost "u" 5 4 = dT
    ∧ dT.update_order oPost "u" 5 10 = dT := by
  decide

/-- C7: `init_from_orders` on an already-initialized registry returns
`false` and mutates nothing; on the (only constructible) uninitialized
registry it folds the streaming insert over the snapshot in order, ends
initialized and returns `true`; and a later snapshot entry duplicating an
earlier signature is dropped as a no-op (first entry wins). -/
theorem init_from_orders_contract :
    (∀ (d : DLOB) (ords : List DLOBOrder) (slot : Nat), d.initialized = true →
        DLOB.init_from_orders d ords slot = (d, false))
    ∧ (∀ (ords : List DLOBOrder) (slot : Nat),
        (DLOB.init_from_orders DLOB.new ords slot).2 = true
        ∧ (DLOB.init_from_orders DLOB.new ords slot).1.initialized = true)
    ∧ (∀ (slot : Nat) (pre post : List DLOBOrder) (x : DLOBOrder),
        DLOB.init_from_orders DLOB.new (pre ++ x :: (post ++ [x])) slot
          = DLOB.init_from_orders DLOB.new (pre ++ x :: post) slot) := by
  refine ⟨?_, ?_, ?_⟩
  · intro d ords slot h
    simp [DLOB.init_from_orders, h]
  · intro ords slot
    have hinit : DLOB.new.initialized = false := rfl
    exact ⟨by simp [DLOB.init_from_orders, hinit], by simp [DLOB.init_from_orders, hinit, DLOB.mark_initialized]⟩
  · intro slot pre post x
    exact init_from_orders_dup slot pre post x

/-- C7 witness: on a concrete initialized registry the bulk load is refused
with `false` and no mutation. -/
theorem init_from_orders_contract_witness :
    DLOB.init_from_orders DLOB.new.mark_initialized [] 5 = (DLOB.new.mark_initialized, false) :=
  init_from_orders_contract.1 DLOB.new.mark_initialized [] 5 rfl

/-- C8: inserting the same (order id, user key) pair twice with unchanged
fields is idempotent — the second `NodeList.insert` hits the duplicate check
on the lookup index and returns without touching length, index or
sequence. -/
theorem insert_duplicate_idempotent (l : NodeList) (o : Order) (u : String) :
    (l.insert o u).insert o u = l.insert o u := by
  by_cases hs : o.status = OrderStatus.Init
  · simp [NodeList.insert, hs]
  · by_cases hc : containsA l.node_map (get_order_signature o.order_id u) = true
    · simp only [insert_noop_of_contains l o u hc]
    · have hc2 : containsA (l.insert o u).node_map
          (get_order_signature o.order_id u) = true := by
        unfold NodeList.insert
        cases hseq : l.seq <;> simp [hs, hc, hseq, containsA_insertA_self]
      exact insert_noop_of_contains _ o u hc2

/-- C9: `NodeList.update` on a present signature replaces only the lookup
index entry with a node built from the new snapshot; the linked sequence and
the length are untouched, so `get` reports the new snapshot while iteration
still yields the node built at insert time. -/
theorem update_replaces_only_index_entry (l : NodeList) (o : Order) (u : String)
    (h : containsA l.node_map (get_order_signature o.order_id u) = true) :
    (l.update o u).iterate = l.iterate
    ∧ (l.update o u).length = l.length
    ∧ (l.update o u).get (get_order_signature o.order_id u)
        = some (create_node l.node_type o u) := by
  unfold NodeList.update NodeList.get NodeList.iterate
  simp [h, lookupA_insertA_self]

/-- C9 witness: updating the price-5 node of `lC9` to price 9 leaves the
sequence reporting price 5 while the index reports price 9 for the same
signature. -/
theorem update_replaces_only_index_entry_witness :
    (containsA lC9.node_map (get_order_signature 9 "u") = true)
    ∧ ((lC9.update (mkLimitOrder 9 9) "u").iterate = lC9.iterate
      ∧ (lC9.update (mkLimitOrder 9 9) "u").length = lC9.length
      ∧ (lC9.update (mkLimitOrder 9 9) "u").get (get_order_signature 9 "u")
          = some (create_node lC9.node_type (mkLimitOrder 9 9) "u"))
    ∧ ((lC9.update (mkLimitOrder 9 9) "u").iterate.map (fun n => n.node.order.price) = [5]
      ∧ ((lC9.update (mkLimitOrder 9 9) "u").get (get_order_signature 9 "u")).map
          (fun n => n.node.order.price) = some 9) :=
  ⟨by decide, update_replaces_only_index_entry lC9 (mkLimitOrder 9 9) "u" (by decide), by decide⟩

/-- C10: `insert_order` on an Open order of a supported type adds the order
signature to the market type's open-order set unconditionally, before and
independently of list routing, so the open set can hold signatures present
in no node list of the registry. -/
theorem insert_order_always_records_open_signature (d : DLOB) (o : Order) (u : String)
    (slot : Nat) (h1 : o.status = OrderStatus.Open)
    (h2 : supported_order_type o.order_type = true) :
    get_order_signature o.order_id u ∈
      (lookupA (d.insert_order o u slot).open_orders o.market_type).getD [] :=
  insert_order_open_mem d o u slot h1 h2

/-- C10 witness: on the cleared registry the inserted open limit order's
signature lands in the Perp open set while every node list of the registry
stays empty and the order is found in no list. -/
theorem insert_order_always_records_open_signature_witness :
    (get_order_signature 1 "u" ∈
      (lookupA ((DLOB.clear DLOB.new).insert_order (mkLimitOrder 1 5) "u" 3).open_orders
        MarketType.Perp).getD [])
    ∧ ((DLOB.clear DLOB.new).insert_order (mkLimitOrder 1 5) "u" 3).get_node_lists.all
        (fun nl => nl.node_map.isEmpty && nl.seq.isEmpty) = true
    ∧ ((DLOB.clear DLOB.new).insert_order (mkLimitOrder 1 5) "u" 3).get_order 1 "u" = none :=
  ⟨insert_order_always_records_open_signature (DLOB.clear DLOB.new) (mkLimitOrder 1 5) "u" 3
      rfl rfl,
    by decide, by decide⟩

end Drift
